import Mathlib

/-!
Verification development for the SlipTrack receipt field-extraction engine.

The Python source (sliptrack/blueprints/uploads/ocr_adapter.py and
sliptrack/blueprints/uploads/routes.py) is shallowly embedded here:

* Python strings are `List Char`;
* Python floats used for currency arithmetic are embedded as exact
  rationals `ℚ` (the amounts are 2-decimal currency values and the
  database columns are exact `Numeric(12,2)` decimals);
* `None`-able values are `Option`;
* the regular expressions of the source are embedded as direct scanners
  implementing the same leftmost / alternation-ordered / greedy
  backtracking semantics that Python's `re` module gives those concrete
  patterns;
* calls into external libraries (`dateutil.parser.parse`, `float`,
  OpenCV, pytesseract) are embedded as Lean models of their documented
  behaviour on the shapes of input the source can pass them, or as
  oracle parameters where the source only composes their results.
-/

namespace SlipTrack

/-- Python strings are embedded as lists of characters. -/
abbrev Str := List Char

/-- Character class of Python's `\d` on the ASCII inputs this code scans. -/
def isDigitC (c : Char) : Bool := c.isDigit

/-- Character class of Python's `\w` (word character) on ASCII inputs:
letters, digits and underscore. -/
def isWordC (c : Char) : Bool := c.isAlphanum || c == '_'

/-- Character class of Python's `\s` on ASCII inputs:
space, tab, newline, carriage return, vertical tab and form feed. -/
def isSpaceC (c : Char) : Bool :=
  c == ' ' || c == '\t' || c == '\n' || c == '\r' ||
  c == Char.ofNat 11 || c == Char.ofNat 12

/-- The apostrophe character, written by code so the source text stays
within plain ASCII names. -/
def apos : Char := Char.ofNat 39

/-- Python `str.lower()` on the ASCII inputs this code scans. -/
def lowerStr (s : Str) : Str := s.map Char.toLower

/-- Python `str.strip()` with no argument: drop whitespace at both ends. -/
def stripWs (s : Str) : Str :=
  ((s.dropWhile isSpaceC).reverse.dropWhile isSpaceC).reverse

/-- Python `str.strip(chars)`: drop any of `chars` at both ends. -/
def stripChars (chars : List Char) (s : Str) : Str :=
  ((s.dropWhile (chars.contains ·)).reverse.dropWhile (chars.contains ·)).reverse

/-- Split on newline characters: the behaviour of Python `str.splitlines()`
on the texts this code scans (the source replaces the form feed, the one
other line break OCR output contains, by a space before splitting). -/
def splitLinesAux (acc : Str) (s : Str) : List Str :=
  match s with
  | [] => [acc.reverse]
  | c :: rest =>
      if c == '\n' then acc.reverse :: splitLinesAux [] rest
      else splitLinesAux (c :: acc) rest

/-- All lines of a text, in order (the final fragment included). -/
def splitLines (s : Str) : List Str := splitLinesAux [] s

/-- Python `"\n".join(lines)`. -/
def joinLines : List Str → Str
  | [] => []
  | [l] => l
  | l :: rest => l ++ '\n' :: joinLines rest

/-- Leading run length of characters satisfying `p`. -/
def runLen (p : Char → Bool) : Str → Nat
  | [] => 0
  | c :: rest => if p c then runLen p rest + 1 else 0

/-- Count of characters satisfying `p`. -/
def countP (p : Char → Bool) (s : Str) : Nat := (s.filter p).length

/-- Numeric value of a list of decimal digit characters. -/
def digitsVal (s : Str) : Nat :=
  s.foldl (fun acc c => 10 * acc + (c.toNat - 48)) 0

/-- Model of Python `float(s)` restricted to the unsigned decimal literals
(`digits`, `digits.digits`, `digits.` or `.digits`) that `_num` can pass it,
returning the exact rational value; `none` where `float` raises. -/
def parseDec (s : Str) : Option ℚ :=
  let intPart := s.takeWhile isDigitC
  let rest := s.drop intPart.length
  match rest with
  | [] => if intPart.isEmpty then none else some (digitsVal intPart : ℚ)
  | '.' :: frac =>
      if frac.all isDigitC ∧ (intPart ≠ [] ∨ frac ≠ []) then
        some ((digitsVal intPart : ℚ) + (digitsVal frac : ℚ) / 10 ^ frac.length)
      else none
  | _ => none

/-- Helper for `rfindC`: scan with the current index and best index so far. -/
def rfindCAux (c : Char) (i : Int) (best : Int) : Str → Int
  | [] => best
  | d :: rest => rfindCAux c (i + 1) (if d == c then i else best) rest

/-- Python `s.rfind(c)`: index of the last occurrence of `c`, `-1` if none. -/
def rfindC (s : Str) (c : Char) : Int := rfindCAux c 0 (-1) s

/-- Remove every occurrence of `c` (Python `s.replace(c, "")`). -/
def removeC (c : Char) (s : Str) : Str := s.filter (fun d => d ≠ c)

/-- Replace every occurrence of `c` by `d` (Python `s.replace(c, d)`). -/
def replaceC (c d : Char) (s : Str) : Str :=
  s.map (fun e => if e == c then d else e)

/-- OcrAdapter._num: locale-tolerant numeric string normalisation. The
rightmost of `.` and `,` is taken as the decimal point: when the last comma
comes after the last dot, dots are stripped as grouping and the comma becomes
the decimal point; otherwise commas are stripped as grouping. The cleaned
string is then converted by `float` (modelled by `parseDec`). -/
def numNorm (s0 : Str) : Option ℚ :=
  if s0.isEmpty then none else
  let s := stripWs s0
  let lastDot := rfindC s '.'
  let lastComma := rfindC s ','
  let cleaned :=
    if lastComma > lastDot then replaceC ',' '.' (removeC '.' s)
    else removeC ',' s
  parseDec cleaned

/-! ## The money-token pattern

The source scans text with
`money_pattern = r"\b\d{1,3}(?:[.,]\d{3})*[.,]\d{2}\b"` via `re.findall`.
The scanner below implements exactly that pattern with Python's semantics:
leftmost match, greedy quantifiers with backtracking, `\b` word boundaries,
and resumption after the end of each match. -/

/-- A decimal or grouping separator of the money pattern (`[.,]`). -/
def sepQ (c : Char) : Bool := c == '.' || c == ','

/-- Maximal number of repetitions of the group `[.,]\d{3}` readable from the
front of the string (each repetition consumes exactly four characters). -/
def starReps : Str → Nat
  | s :: a :: b :: c :: rest =>
      if sepQ s && isDigitC a && isDigitC b && isDigitC c then starReps rest + 1
      else 0
  | _ => 0

/-- Whether `[.,]\d{2}\b` matches at the front of the string. -/
def moneyTail : Str → Bool
  | s :: a :: b :: rest =>
      sepQ s && isDigitC a && isDigitC b &&
      (match rest with | [] => true | d :: _ => !isWordC d)
  | _ => false

/-- Backtracking over the star count: try `k` repetitions of `[.,]\d{3}`
first (the greedy choice), then fewer, until the tail `[.,]\d{2}\b`
matches what follows. -/
def tryStar (cs : Str) : Nat → Option Nat
  | 0 => if moneyTail cs then some 0 else none
  | k + 1 =>
      if moneyTail (cs.drop (4 * (k + 1))) then some (k + 1) else tryStar cs k

/-- Backtracking over the leading `\d{1,3}`: try `d` digits first (the
greedy choice), then fewer. Returns `(digits used, star repetitions)`. -/
def tryDigits (cs : Str) : Nat → Option (Nat × Nat)
  | 0 => none
  | d + 1 =>
      match tryStar (cs.drop (d + 1)) (starReps (cs.drop (d + 1))) with
      | some k => some (d + 1, k)
      | none => tryDigits cs d

/-- Length of the money-pattern match starting exactly here, if any.
`prev` is the character before this position (`none` at the start of the
string); the leading `\b` requires it to be a non-word character. -/
def moneyMatchLen (prev : Option Char) (cs : Str) : Option Nat :=
  let bOK := match prev with | none => true | some c => !isWordC c
  if !bOK then none else
  let r := runLen isDigitC cs
  if r == 0 then none else
  match tryDigits cs (if 3 ≤ r then 3 else r) with
  | some (d, k) => some (d + 4 * k + 3)
  | none => none

/-- The `re.findall` driver: scan left to right; at each position ask the
matcher for a match length; on success emit the matched text and resume
right after it, otherwise advance one character. The fuel argument (the
scan consumes at least one character per step, so the string's length is
always enough) keeps the recursion structural. -/
def findAllAux (m : Option Char → Str → Option Nat) :
    Nat → Option Char → Str → List Str
  | 0, _, _ => []
  | _ + 1, _, [] => []
  | fuel + 1, prev, c :: rest =>
      match m prev (c :: rest) with
      | some k =>
          let k1 := if k == 0 then 1 else k
          (c :: rest).take k1 ::
            findAllAux m fuel ((c :: rest).get? (k1 - 1)) ((c :: rest).drop k1)
      | none => findAllAux m fuel (some c) rest

/-- Model of `re.findall(pattern, s)` for a pattern given by matcher `m`. -/
def findAll (m : Option Char → Str → Option Nat) (s : Str) : List Str :=
  findAllAux m s.length none s

/-- All money-shaped tokens of a string, in order. -/
def moneyFindAll (s : Str) : List Str := findAll moneyMatchLen s

/-! ## The date-candidate pattern

The source finds date-like substrings with
`r"\b(\d{1,4}[dash, slash, dot, space]\d{1,2}[dash, slash, dot, space]\d{1,4}|\d{1,2}\s+[A-Za-z]{3,}\s+\d{2,4})\b"`
via `re.findall`, then feeds each match (in text order) to
`dateutil.parser.parse(match, dayfirst=True)` until one parses. -/

/-- A separator of the numeric date alternative (`[dash, slash, dot, space]`). -/
def dateSepQ (c : Char) : Bool := c == '-' || c == '/' || c == '.' || c == ' '

/-- Match length of the numeric alternative
`\d{1,4}[dash, slash, dot, space]\d{1,2}[dash, slash, dot, space]\d{1,4}` followed by `\b` at the front of the
string. The quantifiers are greedy; because every separator is a non-digit
and `\b` fails on a following digit, each digit field must consume its whole
digit run, so the backtracking search reduces to run-length checks. -/
def dateAlt1 (cs : Str) : Option Nat :=
  let r1 := runLen isDigitC cs
  if r1 < 1 || 4 < r1 then none else
  match cs.drop r1 with
  | [] => none
  | s1 :: rest1 =>
      if !dateSepQ s1 then none else
      let r2 := runLen isDigitC rest1
      if r2 < 1 || 2 < r2 then none else
      match rest1.drop r2 with
      | [] => none
      | s2 :: rest2 =>
          if !dateSepQ s2 then none else
          let r3 := runLen isDigitC rest2
          if r3 < 1 || 4 < r3 then none else
          match rest2.drop r3 with
          | [] => some (r1 + 1 + r2 + 1 + r3)
          | d :: _ => if isWordC d then none else some (r1 + 1 + r2 + 1 + r3)

/-- Match length of the textual alternative
`\d{1,2}\s+[A-Za-z]{3,}\s+\d{2,4}` followed by `\b`. -/
def dateAlt2 (cs : Str) : Option Nat :=
  let r := runLen isDigitC cs
  if r < 1 || 2 < r then none else
  let rest1 := cs.drop r
  let w1 := runLen isSpaceC rest1
  if w1 == 0 then none else
  let rest2 := rest1.drop w1
  let al := runLen Char.isAlpha rest2
  if al < 3 then none else
  let rest3 := rest2.drop al
  let w2 := runLen isSpaceC rest3
  if w2 == 0 then none else
  let rest4 := rest3.drop w2
  let ry := runLen isDigitC rest4
  if ry < 2 || 4 < ry then none else
  match rest4.drop ry with
  | [] => some (r + w1 + al + w2 + ry)
  | d :: _ => if isWordC d then none else some (r + w1 + al + w2 + ry)

/-- Length of the date-pattern match starting exactly here, if any: the
numeric alternative is tried before the textual one, as in the source's
alternation. -/
def dateMatchLen (prev : Option Char) (cs : Str) : Option Nat :=
  let bOK := match prev with | none => true | some c => !isWordC c
  if !bOK then none else
  match dateAlt1 cs with
  | some k => some k
  | none => dateAlt2 cs

/-- All date-shaped tokens of a string, in text order. -/
def dateFindAll (s : Str) : List Str := findAll dateMatchLen s

/-! ## Calendar dates and the dateutil model

`datetime.date` values are embedded as year/month/day triples.
`dateutil.parser.parse(tok, dayfirst=True).date()` is modelled on exactly
the token shapes the date pattern above can produce: three numeric fields,
or digits / month word / digits. The model follows dateutil's
`_ymd.resolve_ymd` resolution (with `dayfirst=True`, `yearfirst=False`),
its two-digit-year conversion relative to the current year, and rejects
words that are not English month names. -/

/-- A calendar date. -/
structure Date where
  year : Nat
  month : Nat
  day : Nat
deriving DecidableEq, Repr

/-- Whether a year is a Gregorian leap year. -/
def isLeap (y : Nat) : Bool := y % 4 == 0 && (y % 100 != 0 || y % 400 == 0)

/-- Days in a month of a year. -/
def daysInMonth (y m : Nat) : Nat :=
  if m == 2 then (if isLeap y then 29 else 28)
  else if m == 4 || m == 6 || m == 9 || m == 11 then 30
  else if 1 ≤ m ∧ m ≤ 12 then 31
  else 0

/-- Build a date if the components denote a real `datetime.date`
(month and day in range, year within datetime's 1..9999); `none` models the
`ValueError` the datetime constructor raises otherwise. -/
def mkValidDate (y m d : Nat) : Option Date :=
  if 1 ≤ y ∧ y ≤ 9999 ∧ 1 ≤ m ∧ m ≤ 12 ∧ 1 ≤ d ∧ d ≤ daysInMonth y m then
    some ⟨y, m, d⟩
  else none

/-- English month names and abbreviations recognised by dateutil's default
parser info, lower-cased, with their month numbers. -/
def monthNames : List (Str × Nat) :=
  [("jan".toList, 1), ("january".toList, 1), ("feb".toList, 2),
   ("february".toList, 2), ("mar".toList, 3), ("march".toList, 3),
   ("apr".toList, 4), ("april".toList, 4), ("may".toList, 5),
   ("jun".toList, 6), ("june".toList, 6), ("jul".toList, 7),
   ("july".toList, 7), ("aug".toList, 8), ("august".toList, 8),
   ("sep".toList, 9), ("sept".toList, 9), ("september".toList, 9),
   ("oct".toList, 10), ("october".toList, 10), ("nov".toList, 11),
   ("november".toList, 11), ("dec".toList, 12), ("december".toList, 12)]

/-- Month number of a word, compared case-insensitively; `none` for a word
that is not an English month name. -/
def monthFromName (w : Str) : Option Nat :=
  (monthNames.find? (fun p => p.1 = lowerStr w)).map (·.2)

/-- dateutil's two-digit-year conversion: a year under 100 (with no
century given by a wide token) is placed in the current century, then moved
by one century towards the current year if it lands 50 or more years away. -/
def convertYear (today : Date) (y : Nat) (centurySpecified : Bool) : Nat :=
  if centurySpecified ∨ y ≥ 100 then y
  else
    let ty : Int := today.year
    let y1 : Int := y + ty / 100 * 100
    let y2 : Int :=
      if (y1 - ty).natAbs ≥ 50 then (if y1 < ty then y1 + 100 else y1 - 100)
      else y1
    y2.toNat

/-- dateutil's `resolve_ymd` for three plain numeric fields with
`dayfirst=True`, `yearfirst=False` and no month word: returns the
`(year, month, day)` assignment before validation. `ystr0` says whether the
first field was at least three digits wide (dateutil labels such a field as
the year when it is the last wide field). -/
def resolveYmdNumeric (n1 n2 n3 : Nat) (ystr0 : Bool) : Nat × Nat × Nat :=
  if n1 > 31 ∨ ystr0 then
    if n3 ≤ 12 then (n1, n3, n2) else (n1, n2, n3)
  else if n1 > 12 ∨ n2 ≤ 12 then (n3, n2, n1)
  else (n3, n1, n2)

/-- Parse one numeric date token (three digit fields and two separators)
as dateutil does with `dayfirst=True`: resolve which field is the year,
month and day, convert a two-digit year, and validate. -/
def parseNumericDate (today : Date) (s : Str) : Option Date :=
  let ds1 := s.takeWhile isDigitC
  let rest1 := s.drop (ds1.length + 1)
  let ds2 := rest1.takeWhile isDigitC
  let rest2 := rest1.drop (ds2.length + 1)
  let ds3 := rest2.takeWhile isDigitC
  let n1 := digitsVal ds1
  let n2 := digitsVal ds2
  let n3 := digitsVal ds3
  let centurySpecified := ds1.length > 2 ∨ ds2.length > 2 ∨ ds3.length > 2
  let ystr0 := ds1.length > 2 ∧ ¬ (ds2.length > 2) ∧ ¬ (ds3.length > 2)
  let (y, m, d) := resolveYmdNumeric n1 n2 n3 ystr0
  mkValidDate (convertYear today y centurySpecified) m d

/-- Parse one textual date token (digits, month word, digits) as dateutil
does with `dayfirst=True`: the word fixes the month; a wide final field is
the year; otherwise a first field over 31 is taken as the year instead of
the day, per dateutil's `mstridx == 1` rule. -/
def parseTextualDate (today : Date) (s : Str) : Option Date :=
  let ds := s.takeWhile isDigitC
  let rest1 := (s.drop ds.length).dropWhile isSpaceC
  let w := rest1.takeWhile Char.isAlpha
  let ys := (rest1.drop w.length).dropWhile isSpaceC
  match monthFromName w with
  | none => none
  | some m =>
      let n1 := digitsVal ds
      let ny := digitsVal ys
      let centurySpecified := ys.length > 2
      if centurySpecified then
        mkValidDate (convertYear today ny centurySpecified) m n1
      else if n1 > 31 then
        mkValidDate (convertYear today n1 false) m ny
      else
        mkValidDate (convertYear today ny false) m n1

/-- Model of `dateutil.parser.parse(tok, dayfirst=True).date()` on the
token shapes the date pattern produces: a token containing a letter goes to
the textual rule, the rest to the numeric rule. -/
def parseDateTok (today : Date) (s : Str) : Option Date :=
  if s.any Char.isAlpha then parseTextualDate today s
  else parseNumericDate today s

/-- The first date token of the list that parses, as in the source's loop
over `re.findall` matches (the loop breaks at the first success). -/
def firstParsedDate (today : Date) : List Str → Option Date
  | [] => none
  | t :: rest =>
      match parseDateTok today t with
      | some d => some d
      | none => firstParsedDate today rest

/-- Decimal digits of `n`, left-padded with zeros to width `w`. -/
def padNat (w : Nat) (n : Nat) : Str :=
  let ds := (Nat.toDigits 10 n)
  List.replicate (w - ds.length) '0' ++ ds

/-- Python `date.isoformat()`: `YYYY-MM-DD` with zero padding. -/
def isoDate (d : Date) : Str :=
  padNat 4 d.year ++ '-' :: padNat 2 d.month ++ '-' :: padNat 2 d.day

/-! ## Keyword searches of parse_fields

All keyword regexes of the source are searched case-insensitively and only
for truthiness, so they embed as Boolean predicates on the lower-cased
line. -/

/-- Whether `needle` occurs as a contiguous substring of `hay`
(a plain `re.search` of a literal). -/
def hasSub (needle hay : Str) : Bool :=
  hay.tails.any (fun t => needle.isPrefixOf t)

/-- Whether `amount\s*due` matches starting exactly here. -/
def amountDueHere (l : Str) : Bool :=
  "amount".toList.isPrefixOf l &&
    "due".toList.isPrefixOf ((l.drop 6).dropWhile isSpaceC)

/-- The total-line keyword test `re.search(r"(total|amount\s*due|grand\s*total)", ln, re.I)`:
`grand\s*total` needs a `total` substring, so the test reduces to the other
two alternatives. `l` must already be lower-cased. -/
def totalKw (l : Str) : Bool :=
  hasSub "total".toList l || l.tails.any amountDueHere

/-- Whether `sub\s*total` (which subsumes `subtotal`) matches starting
exactly here. -/
def subTotalHere (l : Str) : Bool :=
  "sub".toList.isPrefixOf l &&
    "total".toList.isPrefixOf ((l.drop 3).dropWhile isSpaceC)

/-- The subtotal-line keyword test
`re.search(r"(subtotal|sub\s*total)", ln, re.I)`. `l` lower-cased. -/
def subTotalKw (l : Str) : Bool := l.tails.any subTotalHere

/-- The leading or trailing context of a `\b` boundary: no character, or a
non-word character. -/
def bndOK : Option Char → Bool
  | none => true
  | some c => !isWordC c

/-- Word-boundary search helper: does `w` occur at some position with
non-word (or absent) characters on both sides? -/
def hasWordAux (w : Str) (prev : Option Char) : Str → Bool
  | [] => false
  | c :: rest =>
      (bndOK prev && w.isPrefixOf (c :: rest) &&
        bndOK ((c :: rest).get? w.length)) ||
      hasWordAux w (some c) rest

/-- Model of `re.search(r"\bw\b", l)` for a literal word `w`; `l` lower-cased. -/
def hasWord (w : Str) (l : Str) : Bool := hasWordAux w none l

/-- The VAT-line keyword test `re.search(r"\b(vat|tax)\b", ln, re.I)`.
`l` lower-cased. -/
def vatTaxKw (l : Str) : Bool := hasWord "vat".toList l || hasWord "tax".toList l

/-- The supplier-loop skip test
`re.search(r"(tax|vat|invoice|receipt|till|cash|total|amount due)", ln, re.I)`
(all plain substrings; here `amount due` is literal with a single space).
`l` lower-cased. -/
def metaKw (l : Str) : Bool :=
  hasSub "tax".toList l || hasSub "vat".toList l ||
  hasSub "invoice".toList l || hasSub "receipt".toList l ||
  hasSub "till".toList l || hasSub "cash".toList l ||
  hasSub "total".toList l || hasSub "amount due".toList l

/-! ## Supplier-name heuristic -/

/-- A character kept by the supplier `clean` regex class
`[A-Za-z0-9&\.\-\'\s]` (any other character becomes a space). -/
def keepSupC (c : Char) : Bool :=
  c.isAlphanum || c == '&' || c == '.' || c == '-' || c == apos || isSpaceC c

/-- Helper for `collapseWs`, structurally recursive on a fuel bounded
below by the string length (each step consumes at least one character). -/
def collapseWsAux : Nat → Str → Str
  | 0, s => s
  | _ + 1, [] => []
  | fuel + 1, c :: rest =>
      if isSpaceC c then
        let r := runLen isSpaceC rest
        if 1 ≤ r then ' ' :: collapseWsAux fuel (rest.drop r)
        else c :: collapseWsAux fuel rest
      else c :: collapseWsAux fuel rest

/-- Model of `re.sub(r"\s{2,}", " ", s)`: every run of two or more whitespace
characters becomes one space (a single whitespace character is kept as
it is). -/
def collapseWs (s : Str) : Str := collapseWsAux s.length s

/-- The supplier `clean` helper: non-kept characters become spaces,
whitespace runs collapse, and spaces, hyphens and apostrophes are stripped
from both ends. -/
def cleanSup (s : Str) : Str :=
  stripChars [' ', '-', apos]
    (collapseWs (s.map (fun c => if keepSupC c then c else ' ')))

/-- The `letter_ratio(cand) >= 0.40` test: alphabetic characters over
`max(1, len)`, as an exact rational comparison. -/
def letterFracOK (s : Str) : Bool :=
  (2 : ℚ) / 5 ≤ (countP Char.isAlpha s : ℚ) / (max 1 s.length : ℚ)

/-- The supplier scan over the first ten lines: skip metadata-keyword
lines; accept the first cleaned candidate of length at least 3 whose
letter ratio reaches 0.40; empty string when none qualifies. -/
def supplierScanAux : List Str → Str
  | [] => []
  | ln :: rest =>
      if metaKw (lowerStr ln) then supplierScanAux rest
      else
        let cand := cleanSup ln
        if 3 ≤ cand.length ∧ letterFracOK cand then cand
        else supplierScanAux rest

/-- Supplier name from the first ten lines. -/
def supplierScan (lines : List Str) : Str := supplierScanAux (lines.take 10)

/-! ## Supplier VAT number -/

/-- Model of `re.sub(r"\s", "", s)`: remove every whitespace character. -/
def stripAllWs (s : Str) : Str := s.filter (fun c => !isSpaceC c)

/-- Model of `re.search(r"(\d{10})", s)`: the first run of ten consecutive digits
(the first ten of a longer run). -/
def tenDigitsScan : Str → Option Str
  | [] => none
  | c :: rest =>
      let w := (c :: rest).take 10
      if w.length == 10 && w.all isDigitC then some w
      else tenDigitsScan rest

/-- The supplier-VAT-number scan: prefer a ten-digit run on a line
mentioning `vat` as a word (whitespace removed first); fall back to the
first ten-digit run of the whole whitespace-stripped text; empty when
neither finds one. -/
def vatNumScan (lines : List Str) (joined : Str) : Str :=
  match lines.findSome? (fun ln =>
      if hasWord "vat".toList (lowerStr ln) then tenDigitsScan (stripAllWs ln)
      else none) with
  | some v => v
  | none =>
      match tenDigitsScan (stripAllWs joined) with
      | some v => v
      | none => []

/-! ## Reference-number pattern

`r"(invoice|receipt|till|order|statement)\s*(no|#|num|number)?\s*, then an optional colon, dash or hash, then \s*, then the group-3 capture ([letters, digits, dash, slash]+)"`
searched case-insensitively per line via `re.search`; the capture of group 3
is rejected when it equals `no`, `num` or `number` (lower-cased). The
scanner below implements the pattern's ordered alternation and greedy
optionals with backtracking. -/

/-- A character of the final capture class `[letters, digits, dash, slash]`. -/
def classRefC (c : Char) : Bool := c.isAlphanum || c == '-' || c == '/'

/-- Case-insensitive literal prefix test. -/
def ciPre (w : Str) (l : Str) : Bool := lowerStr (l.take w.length) == w

/-- The pattern's tail after the optional label word:
`\s*, then an optional colon, dash or hash, then \s*, then the group-3 capture ([letters, digits, dash, slash]+)`. The optional separator is greedy, with
backtracking to the empty choice when what follows it yields no capture. -/
def refCont (rest2 : Str) : Option Str :=
  let rest3 := rest2.dropWhile isSpaceC
  let withSep :=
    match rest3 with
    | c :: r =>
        if c == ':' || c == '-' || c == '#' then
          let run := (r.dropWhile isSpaceC).takeWhile classRefC
          if run.isEmpty then none else some run
        else none
    | [] => none
  match withSep with
  | some run => some run
  | none =>
      let run := rest3.takeWhile classRefC
      if run.isEmpty then none else some run

/-- One alternative of the optional label group `(no|#|num|number)?`:
match it case-insensitively here and continue with the tail. -/
def refG2 (g : Str) (rest1 : Str) : Option Str :=
  if ciPre g rest1 then refCont (rest1.drop g.length) else none

/-- The pattern after a matched keyword: `\s*` then the label group's
alternatives in the pattern's order (`no`, `#`, `num`, `number`, then the
empty choice), each with the full tail. -/
def refAfterKw (rest0 : Str) : Option Str :=
  let rest1 := rest0.dropWhile isSpaceC
  match refG2 "no".toList rest1 with
  | some r => some r
  | none =>
  match refG2 "#".toList rest1 with
  | some r => some r
  | none =>
  match refG2 "num".toList rest1 with
  | some r => some r
  | none =>
  match refG2 "number".toList rest1 with
  | some r => some r
  | none => refCont rest1

/-- The reference keywords, in the pattern's alternation order (their first
letters differ, so at most one can match at a position). -/
def refKws : List Str :=
  ["invoice".toList, "receipt".toList, "till".toList, "order".toList,
   "statement".toList]

/-- Try the whole reference pattern starting exactly here. -/
def refAtPos (l : Str) : Option Str :=
  refKws.findSome? (fun kw =>
    if ciPre kw l then refAfterKw (l.drop kw.length) else none)

/-- Model of `re.search` of the reference pattern on one line: first position with a
full match wins; returns the group-3 capture. -/
def refSearchLine : Str → Option Str
  | [] => none
  | c :: rest =>
      match refAtPos (c :: rest) with
      | some r => some r
      | none => refSearchLine rest

/-- The reference scan over all lines: the first line whose match's capture
is not a bare label word supplies the reference; a line whose capture is
rejected does not stop the scan. -/
def refScan : List Str → Str
  | [] => []
  | ln :: rest =>
      match refSearchLine ln with
      | some cand =>
          let cl := lowerStr cand
          if cl = "no".toList ∨ cl = "num".toList ∨ cl = "number".toList then
            refScan rest
          else cand
      | none => refScan rest

/-! ## Amount scans and derivation -/

/-- The total scan: walk the lines bottom-up; the first line matching the
total keywords that carries at least one money token stops the loop with
the normalised value of its last money token. The loop's break with a
failed normalisation and its running to exhaustion both leave `total` as
`None`, so they collapse to `none` here. -/
def totalScanRev : List Str → Option ℚ
  | [] => none
  | ln :: rest =>
      if totalKw (lowerStr ln) then
        match (moneyFindAll ln).getLast? with
        | some tok => numNorm tok
        | none => totalScanRev rest
      else totalScanRev rest

/-- The total scan over lines in their original order. -/
def totalScan (lines : List Str) : Option ℚ := totalScanRev lines.reverse

/-- Greatest element of a list of rationals (the source sorts descending
and takes the head). -/
def maxQ (l : List ℚ) : Option ℚ :=
  l.foldl (fun acc v =>
    match acc with
    | none => some v
    | some m => some (max m v)) none

/-- The VAT-amount scan: every line mentioning `vat` or `tax` as a word but
not containing `total` overwrites the VAT amount with the normalised value
of its last money token (the loop has no break, so the last such line
wins). -/
def vatScan (lines : List Str) : Option ℚ :=
  lines.foldl (fun acc ln =>
    if vatTaxKw (lowerStr ln) ∧ ¬ hasSub "total".toList (lowerStr ln) then
      match (moneyFindAll ln).getLast? with
      | some tok => numNorm tok
      | none => acc
    else acc) none

/-- The subtotal scan: every line matching the subtotal keywords overwrites
the subtotal with the normalised value of its last money token (no
break). -/
def subScan (lines : List Str) : Option ℚ :=
  lines.foldl (fun acc ln =>
    if subTotalKw (lowerStr ln) then
      match (moneyFindAll ln).getLast? with
      | some tok => numNorm tok
      | none => acc
    else acc) none

/-! ## Python rounding on exact rationals -/

/-- Round to the nearest integer, ties to the even neighbour: the rounding
Python's `round` performs, on exact rationals. -/
def roundHalfEven (q : ℚ) : ℤ :=
  if q - ⌊q⌋ < 1 / 2 then ⌊q⌋
  else if 1 / 2 < q - ⌊q⌋ then ⌊q⌋ + 1
  else if ⌊q⌋ % 2 = 0 then ⌊q⌋ else ⌊q⌋ + 1

/-- Python `round(x, 2)` on exact rationals. -/
def pyRound2 (q : ℚ) : ℚ := (roundHalfEven (q * 100) : ℚ) / 100

/-! ## parse_fields -/

/-- The record `OcrAdapter.parse_fields` returns. The source always fills
the string fields (with the empty string when no heuristic matched), always
fills `entry_date` and `vat_rate`, and leaves exactly the three amounts
nullable, which the field types record. -/
structure Parsed where
  supplier_name : Str
  supplier_vat_number : Str
  entry_date : Str
  reference_no : Str
  subtotal : Option ℚ
  vat_rate : ℚ
  vat_amount : Option ℚ
  total_amount : Option ℚ
  payment_method : Str
  category : Str
  notes : Str
deriving DecidableEq

/-- The normalised text: form feeds become spaces. -/
def textOf (raw : Str) : Str := replaceC (Char.ofNat 12) ' ' raw

/-- The stripped non-empty lines of the normalised text. -/
def linesOf (raw : Str) : List Str :=
  (splitLines (textOf raw)).filterMap (fun l =>
    let s := stripWs l
    if s.isEmpty then none else some s)

/-- The lines rejoined with newlines for the whole-text regex passes. -/
def joinedOf (raw : Str) : Str := joinLines (linesOf raw)

/-- The entry date: the first parseable date-shaped token of the joined
text, else the current date, ISO-formatted either way. -/
def entryDateOf (today : Date) (joined : Str) : Str :=
  match firstParsedDate today (dateFindAll joined) with
  | some dt => isoDate dt
  | none => isoDate today

/-- The resolved total: the keyword-line scan, else the largest normalised
money token of the whole text. -/
def totalResolved (lines : List Str) (joined : Str) : Option ℚ :=
  match totalScan lines with
  | some v => some v
  | none => maxQ ((moneyFindAll joined).filterMap numNorm)

/-- The derivation step: when the total is present and both the subtotal
and the VAT amount are absent, derive them from the total at the 0.15 VAT
rate, each rounded to two places; otherwise pass the scanned pair through.
Returns `(subtotal, vat_amount)`. -/
def deriveAmounts (total vat0 sub0 : Option ℚ) : Option ℚ × Option ℚ :=
  match total, vat0, sub0 with
  | some t, none, none =>
      let base := t / (1 + 3 / 20)
      (some (pyRound2 base), some (pyRound2 (t - base)))
  | _, _, _ => (sub0, vat0)

/-- The embedding of `OcrAdapter.parse_fields(raw_text)`. `today` is the value of
`datetime.today().date()` at the time of the call (the source's only
input besides the text): it supplies the entry-date fallback and the
two-digit-year pivot of the date parser. -/
def parseFields (today : Date) (raw : Str) : Parsed :=
  let lines := linesOf raw
  let joined := joinedOf raw
  let total := totalResolved lines joined
  let derived := deriveAmounts total (vatScan lines) (subScan lines)
  { supplier_name := supplierScan lines
    supplier_vat_number := vatNumScan lines joined
    entry_date := entryDateOf today joined
    reference_no := refScan lines
    subtotal := derived.1
    vat_rate := 3 / 20
    vat_amount := derived.2
    total_amount := total
    payment_method := "unknown".toList
    category := []
    notes := if (textOf raw).isEmpty then "Manual entry".toList
             else "OCR auto".toList }

/-! ## The duplicate detector (routes._find_duplicates)

`JournalEntry` rows are embedded with the columns the query reads; dates are
day numbers (an `Int`), so `timedelta(days=3)` is `+ 3`; the `Numeric(12,2)`
amount columns are exact rationals. The SQL query is a filter of the
owner's entries followed by an `ORDER BY entry_date DESC`; an entry whose
`total_amount` is NULL fails the amount comparison (SQL three-valued
logic drops it). -/

/-- A persisted journal entry, restricted to the columns
`_find_duplicates` reads. -/
structure Entry where
  user_id : Nat
  entry_date : Int
  supplier_name : Str
  total_amount : Option ℚ
deriving DecidableEq

/-- The match predicate of the duplicate query: same owner, date within
three days either side (inclusive), supplier equal case-insensitively to
the trimmed candidate, and total within 0.02 (inclusive). -/
def dupMatch (userId : Nat) (supplier : Str) (t : ℚ) (day : Int) (e : Entry) : Bool :=
  e.user_id == userId &&
  decide (day - 3 ≤ e.entry_date) && decide (e.entry_date ≤ day + 3) &&
  lowerStr e.supplier_name == lowerStr (stripWs supplier) &&
  (match e.total_amount with
   | some et => decide (|et - t| ≤ 1 / 50)
   | none => false)

/-- Date-descending order used by the query's `ORDER BY`. -/
def dupOrder (a b : Entry) : Prop := b.entry_date ≤ a.entry_date

instance : DecidableRel dupOrder := fun a b =>
  inferInstanceAs (Decidable (b.entry_date ≤ a.entry_date))

instance : IsTotal Entry dupOrder :=
  ⟨fun a b => le_total b.entry_date a.entry_date⟩

instance : IsTrans Entry dupOrder :=
  ⟨fun _ _ _ hab hbc => le_trans hbc hab⟩

/-- The embedding of `routes._find_duplicates(user_id, supplier, total_amount, entry_date)`
over a database `db` of existing entries: empty immediately when the
supplier is empty or the total or date is absent; otherwise the matching
entries ordered by date descending. -/
def findDuplicates (db : List Entry) (userId : Nat) (supplier : Str)
    (total : Option ℚ) (date : Option Int) : List Entry :=
  if supplier.isEmpty then [] else
  match total, date with
  | some t, some day =>
      List.insertionSort dupOrder (db.filter (dupMatch userId supplier t day))
  | _, _ => []

/-! ## The image-preprocessing pipeline (OcrAdapter.preprocess)

Images are embedded as a free algebra over the OpenCV transforms the
source applies, each constructor carrying the parameters the source passes.
The content-dependent step — Otsu binarisation, the foreground coordinates
and `cv2.minAreaRect`'s rotation angle — is an oracle
`minAngle : Img → Option ℚ`, `none` modelling an image with no foreground
pixels (the source then returns the input unrotated). -/

/-- Interpolation flags used by the source. -/
inductive Interp | cubic
deriving DecidableEq

/-- Border modes used by the source. -/
inductive Border | replicate
deriving DecidableEq

/-- The free algebra of images under the source's transforms. -/
inductive Img where
  | raw (path : Str)
  | gray (i : Img)
  | denoise (i : Img)
  | otsu (i : Img)
  | warpAffine (i : Img) (angle : ℚ) (interp : Interp) (border : Border)
  | clahe (i : Img) (clip : ℚ) (tile : Nat × Nat)
  | adaptiveThresh (i : Img) (blockSize : Nat) (c : ℚ)
  | scale (i : Img) (factor : ℚ)
deriving DecidableEq

/-- The deskew angle normalisation
`angle = -(90 + angle) if angle < -45 else -angle`. -/
def normAngle (a : ℚ) : ℚ := if a < -45 then -(90 + a) else -a

/-- The embedding of `OcrAdapter._deskew(gray)`: Otsu-binarise, read the minimum-area
rectangle's angle off the foreground (the oracle), and rotate the
pre-binarisation grayscale input by the normalised angle with cubic
interpolation and replicated borders; unchanged when there is no
foreground. -/
def deskewImg (minAngle : Img → Option ℚ) (g : Img) : Img :=
  match minAngle (Img.otsu g) with
  | none => g
  | some a => Img.warpAffine g (normAngle a) Interp.cubic Border.replicate

/-- `OcrAdapter.preprocess(image_path)`: grayscale, denoise, deskew, CLAHE
(clip 2.0, 8 by 8 tiles), adaptive Gaussian threshold (block 31, offset 15),
in that order. -/
def preprocessImg (minAngle : Img → Option ℚ) (path : Str) : Img :=
  Img.adaptiveThresh
    (Img.clahe (deskewImg minAngle (Img.denoise (Img.gray (Img.raw path)))) 2 (8, 8))
    31 15

/-! ## The text extractor (OcrAdapter.extract_text)

The external OCR engine's plain-text call is an oracle
`ocr : Img → Str → Str` from an image and a Tesseract configuration string
to the transcription. -/

/-- The primary configuration string of the source. -/
def cfgPsm4 : Str := "--oem 3 --psm 4".toList

/-- The fallback configuration string of the source. -/
def cfgPsm6 : Str := "--oem 3 --psm 6".toList

/-- `OcrAdapter.extract_text` on a preprocessed image: one stripped OCR
pass with the primary configuration; when its text is shorter than 20
characters, one stripped fallback pass, returned only when strictly
longer. -/
def extractText (ocr : Img → Str → Str) (img : Img) : Str :=
  let t := stripWs (ocr img cfgPsm4)
  if t.length < 20 then
    let f := stripWs (ocr img cfgPsm6)
    if t.length < f.length then f else t
  else t

/-! ## The spec's multi-variant extractor, for comparison

The definitions below follow the spec's words (section 4.2), not the
source: a small set of image variants crossed with page-segmentation
profiles, each run scored by the mean confidence over tokens that have a
confidence (the no-detection sentinel excluded, not counted as zero), and
the reconstruction of the best-scoring run returned. They exist to be
compared with `extractText` above. -/

/-- A page-segmentation profile of the spec's words: single column,
sparse text, single line. -/
inductive SpecCfg | singleColumn | sparse | singleLine
deriving DecidableEq

/-- One OCR token of the spec's structured output: text, an optional
confidence (the sentinel is `none`) and a (page, block, paragraph, line)
position key. -/
structure Tok where
  text : Str
  conf : Option ℚ
  key : Nat × Nat × Nat × Nat
deriving DecidableEq

/-- The spec's image variants: the base preprocessed image, a
re-contrasted version, and rescales at 1.3 and 1.7. -/
def specVariants (base : Img) : List Img :=
  [base, Img.clahe base 2 (8, 8), Img.scale base (13 / 10), Img.scale base (17 / 10)]

/-- The spec's configuration profiles. -/
def specConfigs : List SpecCfg :=
  [SpecCfg.singleColumn, SpecCfg.sparse, SpecCfg.singleLine]

/-- Mean confidence of a token list over the tokens that carry a
confidence; `none` when no token does. -/
def meanConf (ts : List Tok) : Option ℚ :=
  let cs := ts.filterMap Tok.conf
  if cs.isEmpty then none else some (cs.foldl (· + ·) 0 / cs.length)

/-- Join strings with a separator character. -/
def joinWith (c : Char) : List Str → Str
  | [] => []
  | [l] => l
  | l :: rest => l ++ c :: joinWith c rest

/-- Lexicographic order on position keys. -/
def keyLe (a b : Nat × Nat × Nat × Nat) : Prop :=
  a.1 < b.1 ∨ (a.1 = b.1 ∧ (a.2.1 < b.2.1 ∨ (a.2.1 = b.2.1 ∧
    (a.2.2.1 < b.2.2.1 ∨ (a.2.2.1 = b.2.2.1 ∧ a.2.2.2 ≤ b.2.2.2)))))

instance : DecidableRel keyLe := fun a b => by
  unfold keyLe; infer_instance

/-- The spec's line reconstruction: gate tokens by minimum confidence,
group them by position key, order groups lexicographically by key, join
token texts with spaces inside a group and groups with newlines. -/
def reconstructToks (minConf : ℚ) (ts : List Tok) : Str :=
  let kept := ts.filter (fun t =>
    match t.conf with
    | some c => decide (minConf ≤ c)
    | none => false)
  let keys := (kept.map Tok.key).dedup
  let sortedKeys := List.insertionSort keyLe keys
  joinWith '\n' (sortedKeys.map (fun k =>
    joinWith ' ' ((kept.filter (fun t => t.key == k)).map Tok.text)))

/-- The spec's extractor: enumerate (variant, configuration) runs, score
each by mean confidence, keep the best-scoring run (first on ties) and
return its reconstruction; empty when no run has a confident token. -/
def specExtractText (tok : Img → SpecCfg → List Tok) (minConf : ℚ)
    (base : Img) : Str :=
  let runs := (specVariants base).flatMap (fun v => specConfigs.map (fun c => (v, c)))
  let scored := runs.filterMap (fun p =>
    (meanConf (tok p.1 p.2)).map (fun s => (p.1, p.2, s)))
  let best := scored.foldl (fun acc r =>
    match acc with
    | none => some r
    | some b => if b.2.2 < r.2.2 then some r else some b) none
  match best with
  | none => []
  | some (v, c, _) => reconstructToks minConf (tok v c)

/-- A concrete OCR world for the C2 counterexample: the base image. -/
def c2Base : Img := Img.raw "p".toList

/-- A concrete plain-text OCR oracle: every pass transcribes the same
24-character text. -/
def c2Ocr : Img → Str → Str := fun _ _ => "AAAAAAAAAAAAAAAAAAAAAAAA".toList

/-- The matching structured-token oracle: the (base, single-column) run
carries mean confidence 60, every other (variant, configuration) run a
different reconstruction at confidence 90. -/
def c2Tok : Img → SpecCfg → List Tok := fun i c =>
  if i = c2Base ∧ c = SpecCfg.singleColumn then
    [⟨"AAAAAAAAAAAAAAAAAAAAAAAA".toList, some 60, (0, 0, 0, 0)⟩]
  else [⟨"BBBB".toList, some 90, (0, 0, 0, 0)⟩]

/-! # Theorems -/

/-- Half-even rounding moves a rational by at most one half. -/
theorem abs_roundHalfEven_sub_le (q : ℚ) : |(roundHalfEven q : ℚ) - q| ≤ 1 / 2 := by
  have h0 : (0 : ℚ) ≤ q - ⌊q⌋ := by
    rw [Int.self_sub_floor]; exact Int.fract_nonneg q
  have h1 : q - ⌊q⌋ < 1 := by
    rw [Int.self_sub_floor]; exact Int.fract_lt_one q
  unfold roundHalfEven
  split_ifs with hf hg hev
  all_goals rw [abs_le]
  all_goals constructor
  all_goals push_cast
  all_goals linarith

/-- Python rounding to two places moves a rational by at most 1/200. -/
theorem pyRound2_close (q : ℚ) : |pyRound2 q - q| ≤ 1 / 200 := by
  have h := abs_roundHalfEven_sub_le (q * 100)
  unfold pyRound2
  have e : (roundHalfEven (q * 100) : ℚ) / 100 - q =
      ((roundHalfEven (q * 100) : ℚ) - q * 100) / 100 := by ring
  rw [e, abs_div]
  rw [abs_of_pos (by norm_num : (0 : ℚ) < 100)]
  linarith

/-- Rounding a base and its complement to a total reintroduces at most a
cent of disagreement with the total. -/
theorem derive_sum_close (t b : ℚ) :
    |pyRound2 b + pyRound2 (t - b) - t| ≤ 1 / 100 := by
  have h1 := pyRound2_close b
  have h2 := pyRound2_close (t - b)
  have e : pyRound2 b + pyRound2 (t - b) - t =
      (pyRound2 b - b) + (pyRound2 (t - b) - (t - b)) := by ring
  rw [e]
  exact le_trans (abs_add _ _) (by linarith)

/-- An ISO-formatted date is never the empty string. -/
theorem isoDate_ne_nil (d : Date) : isoDate d ≠ [] := by
  simp [isoDate]

/-- C9: preprocess applies grayscale, denoise, deskew, CLAHE and adaptive
threshold in that fixed order; the deskew stage normalises the min-area-rect
angle (an angle below -45 becomes -(90 + angle)), keeps the result within
[-45, 45] on the rectangle's angle range, and rotates the pre-binarisation
grayscale image with cubic interpolation and edge-replicating borders. -/
theorem preprocess_pipeline_c9 (oracle : Img → Option ℚ) (p : Str)
    (g : Img) (a : ℚ) :
    preprocessImg oracle p =
      Img.adaptiveThresh
        (Img.clahe (deskewImg oracle (Img.denoise (Img.gray (Img.raw p)))) 2 (8, 8))
        31 15 ∧
    (oracle (Img.otsu g) = some a →
      deskewImg oracle g =
        Img.warpAffine g (normAngle a) Interp.cubic Border.replicate) ∧
    (oracle (Img.otsu g) = none → deskewImg oracle g = g) ∧
    (-90 ≤ a → a ≤ 0 → -45 ≤ normAngle a ∧ normAngle a ≤ 45) ∧
    (a < -45 → normAngle a = -(90 + a)) := by
  refine ⟨rfl, ?_, ?_, ?_, ?_⟩
  · intro h; unfold deskewImg; rw [h]
  · intro h; unfold deskewImg; rw [h]
  · intro h1 h2
    unfold normAngle
    split_ifs with hlt
    · constructor <;> linarith
    · constructor <;> linarith
  · intro h
    simp [normAngle, h]

/-- C3 counterexample: a text matching the `cash` keyword for which
parse_fields still reports the payment method as `unknown`, not `cash`. -/
theorem payment_method_cash_cex :
    hasSub "cash".toList (lowerStr (joinedOf "Paid CASH\nTOTAL 57.50".toList)) = true ∧
    (parseFields ⟨2025, 1, 1⟩ "Paid CASH\nTOTAL 57.50".toList).payment_method ≠
      "cash".toList := by
  constructor
  · decide
  · decide

/-- C3 (amended): parse_fields sets payment_method to the constant
`unknown` for every input text; no keyword matching is performed. -/
theorem payment_method_unknown_amended (today : Date) (s : Str) :
    (parseFields today s).payment_method = "unknown".toList := rfl

/-- C10: for every input, parse_fields returns vat_rate 0.15, a non-empty
entry date, the constant payment method, the empty category, and one of the
two constant notes; the string fields are total (empty, never null) and only
the three amounts are nullable, as the `Parsed` type records. -/
theorem parse_fields_totality_c10 (today : Date) (s : Str) :
    (parseFields today s).vat_rate = 3 / 20 ∧
    (parseFields today s).entry_date ≠ [] ∧
    (parseFields today s).payment_method = "unknown".toList ∧
    (parseFields today s).category = [] ∧
    ((parseFields today s).notes = "OCR auto".toList ∨
      (parseFields today s).notes = "Manual entry".toList) := by
  refine ⟨rfl, ?_, rfl, rfl, ?_⟩
  · have e : (parseFields today s).entry_date = entryDateOf today (joinedOf s) := rfl
    rw [e]
    unfold entryDateOf
    cases firstParsedDate today (dateFindAll (joinedOf s)) with
    | none => exact isoDate_ne_nil today
    | some dt => exact isoDate_ne_nil dt
  · have e : (parseFields today s).notes =
        (if (textOf s).isEmpty then "Manual entry".toList else "OCR auto".toList) := rfl
    rw [e]
    split_ifs
    · exact Or.inr rfl
    · exact Or.inl rfl

set_option maxRecDepth 8000 in
/-- C1: on the spec's own end-to-end text `TOTAL: R100.00`, the money
pattern's leading word boundary cannot match after the currency letter `R`,
so no money token is found and parse_fields returns null amounts instead of
total 100.00 with the derived 86.96/13.04; with a space after the `R` (or
no `R`) the derivation produces exactly the spec's values. -/
theorem parse_fields_total_r_prefix (today : Date) :
    moneyFindAll "TOTAL: R100.00".toList = [] ∧
    (parseFields today "TOTAL: R100.00".toList).total_amount = none ∧
    (parseFields today "TOTAL: R100.00".toList).subtotal = none ∧
    (parseFields today "TOTAL: R100.00".toList).vat_amount = none ∧
    (parseFields today "TOTAL: 100.00".toList).total_amount = some 100 ∧
    (parseFields today "TOTAL: 100.00".toList).subtotal = some (8696 / 100) ∧
    (parseFields today "TOTAL: 100.00".toList).vat_amount = some (1304 / 100) := by
  have etot : ∀ (d : Date) (r : Str),
      (parseFields d r).total_amount = totalResolved (linesOf r) (joinedOf r) :=
    fun _ _ => rfl
  have esub : ∀ (d : Date) (r : Str),
      (parseFields d r).subtotal =
        (deriveAmounts (totalResolved (linesOf r) (joinedOf r))
          (vatScan (linesOf r)) (subScan (linesOf r))).1 :=
    fun _ _ => rfl
  have evat : ∀ (d : Date) (r : Str),
      (parseFields d r).vat_amount =
        (deriveAmounts (totalResolved (linesOf r) (joinedOf r))
          (vatScan (linesOf r)) (subScan (linesOf r))).2 :=
    fun _ _ => rfl
  refine ⟨by decide, ?_, ?_, ?_, ?_, ?_, ?_⟩
  · rw [etot]; decide
  · rw [esub]; decide
  · rw [evat]; decide
  · rw [etot]; with_unfolding_all decide
  · rw [esub]; with_unfolding_all decide
  · rw [evat]; with_unfolding_all decide

/-- C7 counterexample: parse_fields is not a function of the text alone —
on a text with no parseable date it returns the current date, so two calls
on identical text under different clocks disagree. -/
theorem parse_fields_clock_cex :
    parseFields ⟨2025, 1, 1⟩ [] ≠ parseFields ⟨2025, 1, 2⟩ [] := by
  decide

/-- C7 (amended): parse_fields never raises (it is total) and is a
deterministic function of the text and the current date; every field except
entry_date depends on the text alone, and when the date scan parses the
same date under both clocks the whole output coincides. -/
theorem parse_fields_purity_amended (d1 d2 : Date) (s : Str) :
    (parseFields d1 s).supplier_name = (parseFields d2 s).supplier_name ∧
    (parseFields d1 s).supplier_vat_number = (parseFields d2 s).supplier_vat_number ∧
    (parseFields d1 s).reference_no = (parseFields d2 s).reference_no ∧
    (parseFields d1 s).subtotal = (parseFields d2 s).subtotal ∧
    (parseFields d1 s).vat_rate = (parseFields d2 s).vat_rate ∧
    (parseFields d1 s).vat_amount = (parseFields d2 s).vat_amount ∧
    (parseFields d1 s).total_amount = (parseFields d2 s).total_amount ∧
    (parseFields d1 s).payment_method = (parseFields d2 s).payment_method ∧
    (parseFields d1 s).category = (parseFields d2 s).category ∧
    (parseFields d1 s).notes = (parseFields d2 s).notes ∧
    (∀ dt, firstParsedDate d1 (dateFindAll (joinedOf s)) = some dt →
      firstParsedDate d2 (dateFindAll (joinedOf s)) = some dt →
      parseFields d1 s = parseFields d2 s) := by
  refine ⟨rfl, rfl, rfl, rfl, rfl, rfl, rfl, rfl, rfl, rfl, ?_⟩
  intro dt h1 h2
  have he : entryDateOf d1 (joinedOf s) = entryDateOf d2 (joinedOf s) := by
    unfold entryDateOf
    rw [h1, h2]
  simp only [parseFields]
  rw [he]

/-- C8 counterexample: the date heuristic does not give ISO-shaped dates
priority — in a text holding a textual date before an ISO date, the
earlier textual date wins, although the ISO token itself is parseable. -/
theorem date_priority_cex :
    dateFindAll (joinedOf "25 Dec 2023\n2024-01-02".toList) =
      ["25 Dec 2023".toList, "2024-01-02".toList] ∧
    parseDateTok ⟨2025, 6, 15⟩ "2024-01-02".toList = some ⟨2024, 2, 1⟩ ∧
    (parseFields ⟨2025, 6, 15⟩ "25 Dec 2023\n2024-01-02".toList).entry_date =
      "2023-12-25".toList ∧
    "2023-12-25".toList ≠ "2024-02-01".toList ∧
    "2023-12-25".toList ≠ "2024-01-02".toList :=
  ⟨by decide, by decide, by decide, by decide, by decide⟩

/-- C8 (amended): the date heuristic extracts all date-shaped substrings
with one pattern and parses them in text order, the first parseable match
winning regardless of its shape; with no parseable match the entry date
defaults to the current date. -/
theorem date_scan_positional_amended (today : Date) (s : Str) :
    (parseFields today s).entry_date =
      (match firstParsedDate today (dateFindAll (joinedOf s)) with
       | some dt => isoDate dt
       | none => isoDate today) ∧
    (dateFindAll (joinedOf s) = [] →
      (parseFields today s).entry_date = isoDate today) ∧
    (∀ tk rest dt, parseDateTok today tk = some dt →
      firstParsedDate today (tk :: rest) = some dt) ∧
    (∀ tk rest, parseDateTok today tk = none →
      firstParsedDate today (tk :: rest) = firstParsedDate today rest) := by
  refine ⟨rfl, ?_, ?_, ?_⟩
  · intro h
    have e : (parseFields today s).entry_date = entryDateOf today (joinedOf s) := rfl
    rw [e]
    unfold entryDateOf
    rw [h]
    rfl
  · intro tk rest dt h
    simp [firstParsedDate, h]
  · intro tk rest h
    simp [firstParsedDate, h]

/-- C4: the derivation fires exactly when the total is present and both the
subtotal and the VAT amount are absent: it then sets
subtotal = round2(total / 1.15) and vat = round2(total - total / 1.15),
whose sum agrees with the total within 0.01; a partially or fully specified
pair is passed through unchanged, never overwritten. -/
theorem parse_fields_derivation_c4 (today : Date) (s : Str) :
    (∀ t, totalResolved (linesOf s) (joinedOf s) = some t →
      vatScan (linesOf s) = none → subScan (linesOf s) = none →
      (parseFields today s).subtotal = some (pyRound2 (t / (1 + 3 / 20))) ∧
      (parseFields today s).vat_amount = some (pyRound2 (t - t / (1 + 3 / 20))) ∧
      |pyRound2 (t / (1 + 3 / 20)) + pyRound2 (t - t / (1 + 3 / 20)) - t| ≤ 1 / 100) ∧
    (∀ v, vatScan (linesOf s) = some v →
      (parseFields today s).vat_amount = some v ∧
      (parseFields today s).subtotal = subScan (linesOf s)) ∧
    (∀ v, subScan (linesOf s) = some v →
      (parseFields today s).subtotal = some v ∧
      (parseFields today s).vat_amount = vatScan (linesOf s)) ∧
    (totalResolved (linesOf s) (joinedOf s) = none →
      (parseFields today s).subtotal = subScan (linesOf s) ∧
      (parseFields today s).vat_amount = vatScan (linesOf s)) := by
  have esub : (parseFields today s).subtotal =
      (deriveAmounts (totalResolved (linesOf s) (joinedOf s))
        (vatScan (linesOf s)) (subScan (linesOf s))).1 := rfl
  have evat : (parseFields today s).vat_amount =
      (deriveAmounts (totalResolved (linesOf s) (joinedOf s))
        (vatScan (linesOf s)) (subScan (linesOf s))).2 := rfl
  refine ⟨?_, ?_, ?_, ?_⟩
  · intro t ht hv hs
    rw [esub, evat, ht, hv, hs]
    exact ⟨rfl, rfl, derive_sum_close t (t / (1 + 3 / 20))⟩
  · intro v hv
    rw [esub, evat, hv]
    cases totalResolved (linesOf s) (joinedOf s) <;> simp [deriveAmounts]
  · intro v hs
    rw [esub, evat, hs]
    cases totalResolved (linesOf s) (joinedOf s) <;>
      cases vatScan (linesOf s) <;> simp [deriveAmounts]
  · intro ht
    rw [esub, evat, ht]
    simp [deriveAmounts]

/-- A digit character is not any given non-digit character. -/
theorem digit_beq_false {c d : Char} (hc : isDigitC c = true)
    (hd : isDigitC d = false) : (c == d) = false := by
  cases h : c == d
  · rfl
  · have e := eq_of_beq h
    rw [e] at hc
    rw [hc] at hd
    exact absurd hd (by simp)

/-- A digit character is not whitespace. -/
theorem digit_not_space {c : Char} (hc : isDigitC c = true) :
    isSpaceC c = false := by
  unfold isSpaceC
  rw [digit_beq_false hc (by decide), digit_beq_false hc (by decide),
    digit_beq_false hc (by decide), digit_beq_false hc (by decide),
    digit_beq_false hc (by decide), digit_beq_false hc (by decide)]
  rfl

/-- A non-digit character does not belong to a list of digits. -/
theorem not_mem_of_digits {A : Str} (hA : ∀ c ∈ A, isDigitC c = true)
    {d : Char} (hd : isDigitC d = false) : d ∉ A := by
  intro hm
  have h1 := hA d hm
  rw [h1] at hd
  exact absurd hd (by simp)

/-- A character is not in `A ++ d :: B` when it is in neither part and
differs from `d`. -/
theorem not_mem_append_cons {A B : Str} {x d : Char}
    (hxA : x ∉ A) (hxd : x ≠ d) (hxB : x ∉ B) : x ∉ A ++ d :: B := by
  intro h
  rcases List.mem_append.mp h with h | h
  · exact hxA h
  · rcases List.mem_cons.mp h with h | h
    · exact hxd h
    · exact hxB h

/-- dropWhile is the identity when no element satisfies the predicate. -/
theorem dropWhile_eq_self_of {p : Char → Bool} {s : Str}
    (h : ∀ c ∈ s, p c = false) : s.dropWhile p = s := by
  cases s with
  | nil => rfl
  | cons c r =>
      rw [List.dropWhile_cons, h c (List.mem_cons_self c r)]
      simp

/-- Stripping whitespace is the identity on a whitespace-free string. -/
theorem stripWs_eq_self_of {s : Str} (h : ∀ c ∈ s, isSpaceC c = false) :
    stripWs s = s := by
  unfold stripWs
  rw [dropWhile_eq_self_of h,
      dropWhile_eq_self_of (fun c hc => h c (by simpa using hc)),
      List.reverse_reverse]

/-- Whitespace-freedom of `A ++ d :: B` from its parts. -/
theorem spacefree_append_cons {A B : Str} {d : Char}
    (hA : ∀ c ∈ A, isDigitC c = true) (hd : isSpaceC d = false)
    (hB : ∀ c ∈ B, isSpaceC c = false) :
    ∀ c ∈ A ++ d :: B, isSpaceC c = false := by
  intro c hc
  rcases List.mem_append.mp hc with h | h
  · exact digit_not_space (hA c h)
  · rcases List.mem_cons.mp h with h | h
    · rw [h]; exact hd
    · exact hB c h

/-- The rfind helper ignores a suffix missing the sought character. -/
theorem rfindCAux_not_mem {c : Char} {s : Str} (h : c ∉ s) :
    ∀ i best, rfindCAux c i best s = best := by
  induction s with
  | nil => intro i best; rfl
  | cons d r ih =>
      intro i best
      have hd : (d == c) = false := by
        cases hb : d == c
        · rfl
        · exact absurd (List.mem_cons_self d r) (by rw [eq_of_beq hb] at h ⊢; exact h)
      unfold rfindCAux
      rw [hd]
      exact ih (fun hm => h (List.mem_cons_of_mem d hm)) _ _

/-- The rfind helper on `A ++ c :: B` with `c` in neither part returns the
index standing at the start of `A` plus `A`'s length. -/
theorem rfindCAux_append {c : Char} {A B : Str} (hA : c ∉ A) (hB : c ∉ B) :
    ∀ i best, rfindCAux c i best (A ++ c :: B) = i + A.length := by
  induction A with
  | nil =>
      intro i best
      simp only [List.nil_append]
      have step : rfindCAux c i best (c :: B) =
          rfindCAux c (i + 1) (if c == c then i else best) B := rfl
      rw [step, beq_self_eq_true, if_pos rfl, rfindCAux_not_mem hB]
      simp
  | cons a A' ih =>
      intro i best
      have ha : (a == c) = false := by
        cases hb : a == c
        · rfl
        · exact absurd (List.mem_cons_self a A') (by rw [eq_of_beq hb] at hA ⊢; exact hA)
      simp only [List.cons_append]
      have step : rfindCAux c i best (a :: (A' ++ c :: B)) =
          rfindCAux c (i + 1) (if a == c then i else best) (A' ++ c :: B) := rfl
      rw [step, ha]
      simp only [Bool.false_eq_true, if_false]
      rw [ih (fun hm => hA (List.mem_cons_of_mem a hm))]
      simp only [List.length_cons]
      push_cast
      ring

/-- rfind misses: `-1` when the character does not occur. -/
theorem rfindC_not_mem {s : Str} {c : Char} (h : c ∉ s) : rfindC s c = -1 :=
  rfindCAux_not_mem h 0 (-1)

/-- rfind of the single occurrence: its index. -/
theorem rfindC_single {A B : Str} {c : Char} (hA : c ∉ A) (hB : c ∉ B) :
    rfindC (A ++ c :: B) c = A.length := by
  unfold rfindC
  rw [rfindCAux_append hA hB]
  ring

/-- A map that fixes every element of a list is the identity there. -/
theorem map_id_of {f : Char → Char} {A : Str} (h : ∀ a ∈ A, f a = a) :
    A.map f = A := by
  induction A with
  | nil => rfl
  | cons a A' ih =>
      rw [List.map_cons, h a (List.mem_cons_self a A'),
        ih (fun b hb => h b (List.mem_cons_of_mem a hb))]

/-- Removing a character absent from a list changes nothing. -/
theorem removeC_not_mem {c : Char} {s : Str} (h : c ∉ s) : removeC c s = s := by
  unfold removeC
  rw [List.filter_eq_self]
  intro a ha
  simp only [ne_eq, decide_eq_true_eq]
  intro e
  rw [e] at ha
  exact h ha

/-- Removing a character from `A ++ c :: B` with `c` in neither part strips
exactly that occurrence. -/
theorem removeC_single {c : Char} {A B : Str} (hA : c ∉ A) (hB : c ∉ B) :
    removeC c (A ++ c :: B) = A ++ B := by
  unfold removeC
  rw [List.filter_append, List.filter_cons]
  simp only [ne_eq, not_true_eq_false, decide_False, Bool.false_eq_true, if_false]
  rw [List.filter_eq_self.mpr, List.filter_eq_self.mpr]
  · intro a ha
    exact decide_eq_true (fun e => hB (e ▸ ha))
  · intro a ha
    exact decide_eq_true (fun e => hA (e ▸ ha))

/-- takeWhile of digits followed by a non-digit yields the digits. -/
theorem takeWhile_digits {A : Str} (hA : ∀ c ∈ A, isDigitC c = true)
    {d : Char} (hd : isDigitC d = false) (B : Str) :
    (A ++ d :: B).takeWhile isDigitC = A := by
  induction A with
  | nil => simp [List.takeWhile_cons, hd]
  | cons a A' ih =>
      rw [List.cons_append, List.takeWhile_cons,
        hA a (List.mem_cons_self a A'),
        ih (fun c hc => hA c (List.mem_cons_of_mem a hc))]
      simp

/-- Python float conversion of a digit string with one decimal dot: integer
part plus fractional part over the matching power of ten. -/
theorem parseDec_digits {A B : Str} (hA0 : A ≠ [])
    (hA : ∀ c ∈ A, isDigitC c = true) (hB : ∀ c ∈ B, isDigitC c = true) :
    parseDec (A ++ '.' :: B) =
      some ((digitsVal A : ℚ) + (digitsVal B : ℚ) / 10 ^ B.length) := by
  simp only [parseDec]
  rw [takeWhile_digits hA (by decide) B, List.drop_left]
  simp [List.all_eq_true.mpr hB, hA0]

/-- Replacing a character in `X ++ c :: Y` with `c` in neither part
rewrites exactly that occurrence. -/
theorem replaceC_single {c d : Char} {X Y : Str} (hX : c ∉ X) (hY : c ∉ Y) :
    replaceC c d (X ++ c :: Y) = X ++ d :: Y := by
  unfold replaceC
  rw [List.map_append, List.map_cons, beq_self_eq_true]
  rw [map_id_of (fun a ha => by
    rw [beq_eq_false_iff_ne.mpr (fun e => hX (by rw [← e]; exact ha))]
    simp)]
  rw [map_id_of (fun a ha => by
    rw [beq_eq_false_iff_ne.mpr (fun e => hY (by rw [← e]; exact ha))]
    simp)]
  simp

/-- The normaliser on an American-style token `A,B.C`: the rightmost
separator is the dot, so the comma is stripped as grouping and the dot is
the decimal point. -/
theorem numNorm_comma_group {A B C : Str} (hA0 : A ≠ [])
    (hA : ∀ c ∈ A, isDigitC c = true) (hB : ∀ c ∈ B, isDigitC c = true)
    (hC : ∀ c ∈ C, isDigitC c = true) :
    numNorm (A ++ ',' :: B ++ '.' :: C) =
      some ((digitsVal (A ++ B) : ℚ) + (digitsVal C : ℚ) / 10 ^ C.length) := by
  have hdA : '.' ∉ A := not_mem_of_digits hA (by decide)
  have hdB : '.' ∉ B := not_mem_of_digits hB (by decide)
  have hdC : '.' ∉ C := not_mem_of_digits hC (by decide)
  have hcA : ',' ∉ A := not_mem_of_digits hA (by decide)
  have hcB : ',' ∉ B := not_mem_of_digits hB (by decide)
  have hcC : ',' ∉ C := not_mem_of_digits hC (by decide)
  have hflat : A ++ ',' :: B ++ '.' :: C = A ++ ',' :: (B ++ '.' :: C) := by
    simp
  have hsp : ∀ c ∈ A ++ ',' :: B ++ '.' :: C, isSpaceC c = false := by
    rw [hflat]
    exact spacefree_append_cons hA (by decide)
      (spacefree_append_cons hB (by decide)
        (fun c hc => digit_not_space (hC c hc)))
  have hempty : (A ++ ',' :: B ++ '.' :: C).isEmpty = false := by
    cases A with
    | nil => exact absurd rfl hA0
    | cons a A' => rfl
  have hdot : rfindC (A ++ ',' :: B ++ '.' :: C) '.' =
      ((A ++ ',' :: B).length : Int) :=
    rfindC_single (not_mem_append_cons hdA (by decide) hdB) hdC
  have hcom : rfindC (A ++ ',' :: B ++ '.' :: C) ',' = (A.length : Int) := by
    rw [hflat]
    exact rfindC_single hcA
      (not_mem_append_cons hcB (show (',' : Char) ≠ '.' by decide) hcC)
  simp only [numNorm]
  rw [stripWs_eq_self_of hsp, hempty]
  simp only [Bool.false_eq_true, if_false]
  rw [hdot, hcom]
  rw [if_neg (by
    simp only [List.length_append, List.length_cons]
    push_cast
    omega)]
  have hrm : removeC ',' (A ++ ',' :: B ++ '.' :: C) = (A ++ B) ++ '.' :: C := by
    rw [hflat,
      removeC_single hcA
        (not_mem_append_cons hcB (show (',' : Char) ≠ '.' by decide) hcC),
      ← List.append_assoc]
  rw [hrm]
  exact parseDec_digits (by cases A with
    | nil => exact absurd rfl hA0
    | cons a A' => simp)
    (fun c hc => (List.mem_append.mp hc).elim (hA c) (hB c)) hC

/-- The normaliser on a European-style token `A.B,C`: the rightmost
separator is the comma, so dots are stripped as grouping and the comma
becomes the decimal point. -/
theorem numNorm_dot_group {A B C : Str} (hA0 : A ≠ [])
    (hA : ∀ c ∈ A, isDigitC c = true) (hB : ∀ c ∈ B, isDigitC c = true)
    (hC : ∀ c ∈ C, isDigitC c = true) :
    numNorm (A ++ '.' :: B ++ ',' :: C) =
      some ((digitsVal (A ++ B) : ℚ) + (digitsVal C : ℚ) / 10 ^ C.length) := by
  have hdA : '.' ∉ A := not_mem_of_digits hA (by decide)
  have hdB : '.' ∉ B := not_mem_of_digits hB (by decide)
  have hdC : '.' ∉ C := not_mem_of_digits hC (by decide)
  have hcA : ',' ∉ A := not_mem_of_digits hA (by decide)
  have hcB : ',' ∉ B := not_mem_of_digits hB (by decide)
  have hcC : ',' ∉ C := not_mem_of_digits hC (by decide)
  have hflat : A ++ '.' :: B ++ ',' :: C = A ++ '.' :: (B ++ ',' :: C) := by
    simp
  have hsp : ∀ c ∈ A ++ '.' :: B ++ ',' :: C, isSpaceC c = false := by
    rw [hflat]
    exact spacefree_append_cons hA (by decide)
      (spacefree_append_cons hB (by decide)
        (fun c hc => digit_not_space (hC c hc)))
  have hempty : (A ++ '.' :: B ++ ',' :: C).isEmpty = false := by
    cases A with
    | nil => exact absurd rfl hA0
    | cons a A' => rfl
  have hcom : rfindC (A ++ '.' :: B ++ ',' :: C) ',' =
      ((A ++ '.' :: B).length : Int) :=
    rfindC_single (not_mem_append_cons hcA (by decide) hcB) hcC
  have hdot : rfindC (A ++ '.' :: B ++ ',' :: C) '.' = (A.length : Int) := by
    rw [hflat]
    exact rfindC_single hdA
      (not_mem_append_cons hdB (show ('.' : Char) ≠ ',' by decide) hdC)
  simp only [numNorm]
  rw [stripWs_eq_self_of hsp, hempty]
  simp only [Bool.false_eq_true, if_false]
  rw [hdot, hcom]
  rw [if_pos (by
    simp only [List.length_append, List.length_cons]
    push_cast
    omega)]
  have hrm : removeC '.' (A ++ '.' :: B ++ ',' :: C) = (A ++ B) ++ ',' :: C := by
    rw [hflat,
      removeC_single hdA
        (not_mem_append_cons hdB (show ('.' : Char) ≠ ',' by decide) hdC),
      ← List.append_assoc]
  rw [hrm]
  have hrep : replaceC ',' '.' ((A ++ B) ++ ',' :: C) = (A ++ B) ++ '.' :: C :=
    replaceC_single
      (fun hm => (List.mem_append.mp hm).elim (fun h => hcA h) (fun h => hcB h)) hcC
  rw [hrep]
  exact parseDec_digits (by cases A with
    | nil => exact absurd rfl hA0
    | cons a A' => simp)
    (fun c hc => (List.mem_append.mp hc).elim (hA c) (hB c)) hC

/-- The normaliser on a token with a single dot: the dot is the decimal
point. -/
theorem numNorm_dot_only {A B : Str} (hA0 : A ≠ [])
    (hA : ∀ c ∈ A, isDigitC c = true) (hB : ∀ c ∈ B, isDigitC c = true) :
    numNorm (A ++ '.' :: B) =
      some ((digitsVal A : ℚ) + (digitsVal B : ℚ) / 10 ^ B.length) := by
  have hdA : '.' ∉ A := not_mem_of_digits hA (by decide)
  have hdB : '.' ∉ B := not_mem_of_digits hB (by decide)
  have hcA : ',' ∉ A := not_mem_of_digits hA (by decide)
  have hcB : ',' ∉ B := not_mem_of_digits hB (by decide)
  have hsp : ∀ c ∈ A ++ '.' :: B, isSpaceC c = false :=
    spacefree_append_cons hA (by decide) (fun c hc => digit_not_space (hB c hc))
  have hempty : (A ++ '.' :: B).isEmpty = false := by
    cases A with
    | nil => exact absurd rfl hA0
    | cons a A' => rfl
  have hdot : rfindC (A ++ '.' :: B) '.' = (A.length : Int) :=
    rfindC_single hdA hdB
  have hcom : rfindC (A ++ '.' :: B) ',' = -1 :=
    rfindC_not_mem (not_mem_append_cons hcA (by decide) hcB)
  simp only [numNorm]
  rw [stripWs_eq_self_of hsp, hempty]
  simp only [Bool.false_eq_true, if_false]
  rw [hdot, hcom]
  rw [if_neg (by omega)]
  rw [removeC_not_mem (not_mem_append_cons hcA (by decide) hcB)]
  exact parseDec_digits hA0 hA hB

/-- The normaliser on a token with a single comma: the comma is the decimal
point. -/
theorem numNorm_comma_only {A B : Str} (hA0 : A ≠ [])
    (hA : ∀ c ∈ A, isDigitC c = true) (hB : ∀ c ∈ B, isDigitC c = true) :
    numNorm (A ++ ',' :: B) =
      some ((digitsVal A : ℚ) + (digitsVal B : ℚ) / 10 ^ B.length) := by
  have hdA : '.' ∉ A := not_mem_of_digits hA (by decide)
  have hdB : '.' ∉ B := not_mem_of_digits hB (by decide)
  have hcA : ',' ∉ A := not_mem_of_digits hA (by decide)
  have hcB : ',' ∉ B := not_mem_of_digits hB (by decide)
  have hsp : ∀ c ∈ A ++ ',' :: B, isSpaceC c = false :=
    spacefree_append_cons hA (by decide) (fun c hc => digit_not_space (hB c hc))
  have hempty : (A ++ ',' :: B).isEmpty = false := by
    cases A with
    | nil => exact absurd rfl hA0
    | cons a A' => rfl
  have hcom : rfindC (A ++ ',' :: B) ',' = (A.length : Int) :=
    rfindC_single hcA hcB
  have hdot : rfindC (A ++ ',' :: B) '.' = -1 :=
    rfindC_not_mem (not_mem_append_cons hdA (by decide) hdB)
  simp only [numNorm]
  rw [stripWs_eq_self_of hsp, hempty]
  simp only [Bool.false_eq_true, if_false]
  rw [hdot, hcom]
  rw [if_pos (by omega)]
  rw [removeC_not_mem (not_mem_append_cons hdA (by decide) hdB),
    replaceC_single hcA hcB]
  exact parseDec_digits hA0 hA hB

set_option maxRecDepth 2000 in
/-- C6: the numeric normaliser treats whichever of dot and comma occurs
rightmost as the decimal point and strips the other as grouping — both
`1,234.56` and `1.234,56` give 1234.56 — and for every money-like digit
string with one grouping separator (either convention) or a single
decimal-marking separator, the result is exactly the value the string
denotes under that reading. -/
theorem num_norm_c6 :
    (numNorm "1,234.56".toList = some (123456 / 100) ∧
     numNorm "1.234,56".toList = some (123456 / 100)) ∧
    (∀ A B C : Str, A ≠ [] →
      (∀ c ∈ A, isDigitC c = true) → (∀ c ∈ B, isDigitC c = true) →
      (∀ c ∈ C, isDigitC c = true) →
      numNorm (A ++ ',' :: B ++ '.' :: C) =
        some ((digitsVal (A ++ B) : ℚ) + (digitsVal C : ℚ) / 10 ^ C.length) ∧
      numNorm (A ++ '.' :: B ++ ',' :: C) =
        some ((digitsVal (A ++ B) : ℚ) + (digitsVal C : ℚ) / 10 ^ C.length)) ∧
    (∀ A B : Str, A ≠ [] →
      (∀ c ∈ A, isDigitC c = true) → (∀ c ∈ B, isDigitC c = true) →
      numNorm (A ++ '.' :: B) =
        some ((digitsVal A : ℚ) + (digitsVal B : ℚ) / 10 ^ B.length) ∧
      numNorm (A ++ ',' :: B) =
        some ((digitsVal A : ℚ) + (digitsVal B : ℚ) / 10 ^ B.length)) := by
  refine ⟨⟨?_, ?_⟩, ?_, ?_⟩
  · have e : "1,234.56".toList =
        ("1".toList : Str) ++ ',' :: "234".toList ++ '.' :: "56".toList := by
      decide
    rw [e, numNorm_comma_group (by decide) (by decide) (by decide) (by decide)]
    have d1 : digitsVal (("1".toList : Str) ++ "234".toList) = 1234 := rfl
    have d2 : digitsVal "56".toList = 56 := rfl
    have d3 : ("56".toList : Str).length = 2 := rfl
    rw [d1, d2, d3]
    norm_num
  · have e : "1.234,56".toList =
        ("1".toList : Str) ++ '.' :: "234".toList ++ ',' :: "56".toList := by
      decide
    rw [e, numNorm_dot_group (by decide) (by decide) (by decide) (by decide)]
    have d1 : digitsVal (("1".toList : Str) ++ "234".toList) = 1234 := rfl
    have d2 : digitsVal "56".toList = 56 := rfl
    have d3 : ("56".toList : Str).length = 2 := rfl
    rw [d1, d2, d3]
    norm_num
  · intro A B C hA0 hA hB hC
    exact ⟨numNorm_comma_group hA0 hA hB hC, numNorm_dot_group hA0 hA hB hC⟩
  · intro A B hA0 hA hB
    exact ⟨numNorm_dot_only hA0 hA hB, numNorm_comma_only hA0 hA hB⟩

/-- Witness for C6: the general separator rule instantiated on concrete
digit lists gives the concrete value. -/
theorem num_norm_c6_witness :
    numNorm "9,876.54".toList = some ((9876 : ℚ) + (54 : ℚ) / 10 ^ 2) := by
  have h := (num_norm_c6.2.1 "9".toList "876".toList "54".toList
    (by decide) (by decide) (by decide) (by decide)).1
  have e : ("9".toList : Str) ++ ',' :: "876".toList ++ '.' :: "54".toList =
      "9,876.54".toList := by decide
  have e2 : ("9".toList : Str) ++ "876".toList = "9876".toList := by decide
  rw [e, e2] at h
  rw [h]
  have d1 : digitsVal "9876".toList = 9876 := rfl
  have d2 : digitsVal "54".toList = 54 := rfl
  have d3 : ("54".toList : Str).length = 2 := rfl
  rw [d1, d2, d3]
  norm_num

/-- C5: findDuplicates is empty as soon as an anchor (supplier, total or
date) is absent; with all three anchors, an entry is returned exactly when
it belongs to the same owner, its date is within three days either side of
the candidate date, its supplier equals the trimmed candidate supplier
case-insensitively, and its total differs from the candidate total by at
most 0.02 inclusive; the result is the matching entries ordered by entry
date descending. -/
theorem find_duplicates_c5 (db : List Entry) (u : Nat) (sup : Str)
    (tot : Option ℚ) (dt : Option Int) :
    (sup = [] ∨ tot = none ∨ dt = none → findDuplicates db u sup tot dt = []) ∧
    (∀ t day, tot = some t → dt = some day →
      ∀ e, e ∈ findDuplicates db u sup tot dt ↔
        e ∈ db ∧ sup ≠ [] ∧ e.user_id = u ∧
        day - 3 ≤ e.entry_date ∧ e.entry_date ≤ day + 3 ∧
        lowerStr e.supplier_name = lowerStr (stripWs sup) ∧
        ∃ et, e.total_amount = some et ∧ |et - t| ≤ 1 / 50) ∧
    List.Sorted dupOrder (findDuplicates db u sup tot dt) ∧
    (∀ t day, tot = some t → dt = some day → sup ≠ [] →
      (findDuplicates db u sup tot dt).Perm (db.filter (dupMatch u sup t day))) := by
  refine ⟨?_, ?_, ?_, ?_⟩
  · rintro (h | h | h)
    · subst h; rfl
    · subst h; cases sup with
      | nil => rfl
      | cons a l => cases dt <;> rfl
    · subst h; cases sup with
      | nil => rfl
      | cons a l => cases tot <;> rfl
  · intro t day ht hd e
    subst ht; subst hd
    cases sup with
    | nil => simp [findDuplicates]
    | cons a l =>
        have hne : (a :: l : Str) ≠ [] := by simp
        show e ∈ List.insertionSort dupOrder
            (db.filter (dupMatch u (a :: l) t day)) ↔ _
        rw [List.mem_insertionSort, List.mem_filter]
        unfold dupMatch
        cases het : e.total_amount with
        | none => simp [het, hne]
        | some et => simp [het, hne, and_assoc]
  · cases sup with
    | nil => exact List.sorted_nil
    | cons a l =>
        cases tot with
        | none => exact List.sorted_nil
        | some t =>
            cases dt with
            | none => exact List.sorted_nil
            | some day => exact List.sorted_insertionSort dupOrder _
  · intro t day ht hd hs
    subst ht; subst hd
    cases sup with
    | nil => exact absurd rfl hs
    | cons a l => exact List.perm_insertionSort dupOrder _

/-- Witness for C5 on a concrete database: the candidate (owner 1,
supplier `Acme ` with a trailing blank, total 100.00, day 12) flags the
existing `ACME` entry 0.02 away dated two days earlier, does not flag the
one 0.03 away, and a candidate missing an anchor flags nothing. -/
theorem find_duplicates_c5_witness :
    (⟨1, 10, "ACME".toList, some (9998 / 100)⟩ : Entry) ∈
      findDuplicates
        [⟨1, 10, "ACME".toList, some (9998 / 100)⟩,
         ⟨1, 10, "ACME".toList, some (9997 / 100)⟩]
        1 "Acme ".toList (some 100) (some 12) ∧
    (⟨1, 10, "ACME".toList, some (9997 / 100)⟩ : Entry) ∉
      findDuplicates
        [⟨1, 10, "ACME".toList, some (9998 / 100)⟩,
         ⟨1, 10, "ACME".toList, some (9997 / 100)⟩]
        1 "Acme ".toList (some 100) (some 12) ∧
    findDuplicates [⟨1, 10, "ACME".toList, some 100⟩]
      1 "Acme".toList none (some 12) = [] := by
  have h := find_duplicates_c5
    [⟨1, 10, "ACME".toList, some (9998 / 100)⟩,
     ⟨1, 10, "ACME".toList, some (9997 / 100)⟩]
    1 "Acme ".toList (some 100) (some 12)
  refine ⟨?_, ?_, ?_⟩
  · rw [h.2.1 100 12 rfl rfl]
    refine ⟨List.mem_cons_self _ _, by decide, rfl, by decide, by decide,
      by decide, 9998 / 100, rfl, by rw [abs_le]; constructor <;> norm_num⟩
  · rw [h.2.1 100 12 rfl rfl]
    rintro ⟨-, -, -, -, -, -, et, het, hle⟩
    have e : et = 9997 / 100 := Option.some.inj het.symm
    rw [e, abs_le] at hle
    have := hle.1
    norm_num at this
  · exact (find_duplicates_c5 [⟨1, 10, "ACME".toList, some 100⟩]
      1 "Acme".toList none (some 12)).1 (Or.inr (Or.inl rfl))

set_option maxRecDepth 8000 in
/-- Witness for C4 at a concrete receipt text: the derivation's hypotheses
are satisfiable and produce the promised rounded pair. -/
theorem parse_fields_derivation_c4_witness :
    (parseFields ⟨2025, 1, 1⟩ "TOTAL: 44.85".toList).subtotal =
      some (pyRound2 ((897 / 20 : ℚ) / (1 + 3 / 20))) ∧
    (parseFields ⟨2025, 1, 1⟩ "TOTAL: 44.85".toList).vat_amount =
      some (pyRound2 ((897 / 20 : ℚ) - (897 / 20 : ℚ) / (1 + 3 / 20))) := by
  have h := (parse_fields_derivation_c4 ⟨2025, 1, 1⟩ "TOTAL: 44.85".toList).1
    (897 / 20) (by with_unfolding_all decide) (by decide) (by decide)
  exact ⟨h.1, h.2.1⟩

/-- C2 counterexample: extract_text returns the single-configuration
transcription even when a different (variant, configuration) run has the
highest mean confidence, so it does not select the best-scoring run of the
spec's enumeration. -/
theorem extract_text_best_run_cex :
    extractText c2Ocr c2Base = "AAAAAAAAAAAAAAAAAAAAAAAA".toList ∧
    specExtractText c2Tok 55 c2Base = "BBBB".toList ∧
    extractText c2Ocr c2Base ≠ specExtractText c2Tok 55 c2Base :=
  ⟨by decide, by with_unfolding_all decide, by with_unfolding_all decide⟩

/-- C2 (amended): extract_text makes a single OCR pass with the PSM-4
configuration, adds one PSM-6 fallback pass only when the stripped primary
text is shorter than 20 characters (keeping the strictly longer of the
two), and consults nothing but those two passes — no image variants and no
confidence scores. -/
theorem extract_text_two_pass_amended (ocr : Img → Str → Str) (img : Img) :
    (extractText ocr img = stripWs (ocr img cfgPsm4) ∨
     extractText ocr img = stripWs (ocr img cfgPsm6)) ∧
    (20 ≤ (stripWs (ocr img cfgPsm4)).length →
      extractText ocr img = stripWs (ocr img cfgPsm4)) ∧
    ((stripWs (ocr img cfgPsm4)).length < 20 →
      extractText ocr img =
        (if (stripWs (ocr img cfgPsm4)).length < (stripWs (ocr img cfgPsm6)).length
         then stripWs (ocr img cfgPsm6) else stripWs (ocr img cfgPsm4))) ∧
    (∀ ocr2 : Img → Str → Str,
      ocr img cfgPsm4 = ocr2 img cfgPsm4 → ocr img cfgPsm6 = ocr2 img cfgPsm6 →
      extractText ocr img = extractText ocr2 img) := by
  unfold extractText
  by_cases h : (stripWs (ocr img cfgPsm4)).length < 20
  · refine ⟨?_, ?_, ?_, ?_⟩
    · simp only [if_pos h]
      by_cases h2 : (stripWs (ocr img cfgPsm4)).length < (stripWs (ocr img cfgPsm6)).length
      · exact Or.inr (by rw [if_pos h2])
      · exact Or.inl (by rw [if_neg h2])
    · intro hge; omega
    · intro _; rw [if_pos h]
    · intro ocr2 e4 e6; rw [e4, e6]
  · refine ⟨Or.inl (by rw [if_neg h]), fun _ => by rw [if_neg h], fun hlt => absurd hlt h, ?_⟩
    intro ocr2 e4 e6; rw [e4, e6]

end SlipTrack
